import Mathlib

/-
Verification of the URL-shortener backend (src/server.js plus the mongoose
Url schema embedded in the same source bundle).

The store is modelled as a list of `UrlRecord` in insertion (natural) order;
`findOne` returns the first matching document.  Timestamps are naturals.
The generator `shortid.generate` is third-party code absent from the
repository, so calls to it are modelled as reading successive values of a
stream `gen : Nat → String`; the unbounded `while (!isUnique)` loop is
rendered with an explicit fuel argument: a `none` result means the loop has
not produced an outcome within `fuel` iterations (and never will, whenever
every candidate collides).
-/

set_option maxRecDepth 8000

/-- JavaScript whitespace in the ASCII range as stripped by
`String.prototype.trim`: space, tab, LF, VT, FF, CR.  Mongoose applies this
trim via the schema's `trim: true` setters when a field is assigned on a
document. -/
def isJsSpace (c : Char) : Bool :=
  c = ' ' || c = '\t' || c = '\n' || c = '\r' || c.toNat = 11 || c.toNat = 12

/-- C0 controls and space, which the WHATWG URL parser strips from both ends
of its input before parsing. -/
def isC0OrSpace (c : Char) : Bool := c.toNat ≤ 32

/-- Drop characters satisfying `p` from both ends of a character list. -/
def dropEnds (p : Char → Bool) (l : List Char) : List Char :=
  ((l.dropWhile p).reverse.dropWhile p).reverse

/-- Model of the `trim: true` setters of the Url schema (fields
`originalUrl` and `shortCode`): mongoose trims a string field with
JavaScript trim when it is set on a document, so every stored value is
trimmed.  Find filters are not trimmed: `findOne` compares the raw value. -/
def trimStr (s : String) : String := String.mk (dropEnds isJsSpace s.toList)

/-- Characters allowed in a URL scheme after its first letter. -/
def isSchemeChar (c : Char) : Bool := c.isAlphanum || c = '+' || c = '-' || c = '.'

/-- Consume scheme characters up to `:`; returns the lower-cased scheme and
the remainder after the colon, or `none` when no scheme terminates. -/
def schemeAux : List Char → List Char → Option (List Char × List Char)
  | _, [] => none
  | acc, c :: cs =>
    if c = ':' then some (acc.reverse, cs)
    else if isSchemeChar c then schemeAux (c.toLower :: acc) cs
    else none

/-- Split off the scheme (first char must be an ASCII letter). -/
def splitScheme : List Char → Option (List Char × List Char)
  | [] => none
  | c :: cs => if c.isAlpha then schemeAux [c.toLower] cs else none

/-- The WHATWG special schemes. -/
def specialSchemes : List String := ["ftp", "file", "http", "https", "ws", "wss"]

def isSlashChar (c : Char) : Bool := c = '/' || c = '\\'

def isAuthorityEnd (c : Char) : Bool := c = '/' || c = '\\' || c = '?' || c = '#'

/-- Model of the WHATWG URL constructor invoked at `new URL(string)` in
`isValidUrl` (src/server.js line 37), restricted to validity: after
stripping leading/trailing C0 controls and spaces, the input must start with
a scheme (ASCII letter, then letters/digits/`+`/`-`/`.`, ended by `:`).
For a special scheme other than `file`, the authority after the colon
(skipping any run of `/` and `\`) must be nonempty and free of C0 controls
and spaces; a non-special scheme (such as `mailto:`) is accepted whatever
follows the colon, exactly as in the standard, which requires a host only
for special schemes.  Userinfo/port validation and interior tab/newline
removal are not modelled; no claim depends on them. -/
def isValidUrl (s : String) : Bool :=
  match splitScheme (dropEnds isC0OrSpace s.toList) with
  | none => false
  | some (scheme, rest) =>
    let schemeS := String.mk scheme
    if schemeS ∈ specialSchemes then
      if schemeS = "file" then true
      else
        let authority := (rest.dropWhile isSlashChar).takeWhile (fun c => !isAuthorityEnd c)
        !authority.isEmpty && authority.all (fun c => !isC0OrSpace c)
    else true

/-- A Url document (the mongoose schema bundled with src/server.js):
`originalUrl` and `shortCode` are stored trimmed, `clicks` defaults to 0,
`createdAt` defaults to the creation time, `lastAccessed` defaults to
null. -/
structure UrlRecord where
  originalUrl : String
  shortCode : String
  clicks : Nat
  createdAt : Nat
  lastAccessed : Option Nat
deriving DecidableEq

/-- First document in natural order whose `key` field equals the raw filter
value (`Url.findOne({ ... })`; MongoDB matches the exact string). -/
def findOneBy (key : UrlRecord → String) (store : List UrlRecord) (v : String) :
    Option UrlRecord :=
  match store with
  | [] => none
  | r :: rs => if key r == v then some r else findOneBy key rs v

/-- `Url.findOne({ originalUrl })` (src/server.js line 61). -/
def findOneByOriginalUrl (store : List UrlRecord) (url : String) : Option UrlRecord :=
  findOneBy (fun r => r.originalUrl) store url

/-- `Url.findOne({ shortCode })` (src/server.js lines 77 and 108). -/
def findOneByShortCode (store : List UrlRecord) (code : String) : Option UrlRecord :=
  findOneBy (fun r => r.shortCode) store code

/-- Default `BASE_URL` (src/server.js line 24). -/
def BASE_URL : String := "http://localhost:3000"

/-- The JSON body returned by POST /api/shorten. -/
structure ShortenResponse where
  originalUrl : String
  shortUrl : String
  shortCode : String
deriving DecidableEq

/-- Outcome of POST /api/shorten; every constructor carries the store after
the request, so that error paths visibly leave it unchanged.  `missingUrl`
is the 400 "URL is required" response, `invalidUrl` the 400 "Invalid URL
format" response, `found` the 200 fast path for an existing record, and
`created` the 201 path that inserted a new record. -/
inductive ShortenResult where
  | missingUrl (store : List UrlRecord)
  | invalidUrl (store : List UrlRecord)
  | found (resp : ShortenResponse) (store : List UrlRecord)
  | created (resp : ShortenResponse) (store : List UrlRecord)
deriving DecidableEq

/-- The `while (!isUnique)` loop body (src/server.js lines 75-81): attempt
`start`, `start+1`, ... of the generator stream, returning the first
candidate whose `findOne({ shortCode })` lookup misses.  `none` means the
loop is still running after `fuel` iterations. -/
def findFresh (gen : Nat → String) (store : List UrlRecord) :
    Nat → Nat → Option String
  | _, 0 => none
  | start, fuel + 1 =>
    if findOneByShortCode store (gen start) = none then some (gen start)
    else findFresh gen store (start + 1) fuel

/-- POST /api/shorten (src/server.js lines 47-101).  `input` is
`req.body.originalUrl` (`none` when the key is absent); `!originalUrl` is
falsy exactly for the absent and empty cases.  On creation the new document
is appended to the store with both string fields trimmed by the schema
setters. -/
def shorten (gen : Nat → String) (now : Nat) (store : List UrlRecord)
    (input : Option String) (fuel : Nat) : Option ShortenResult :=
  match input with
  | none => some (ShortenResult.missingUrl store)
  | some originalUrl =>
    if originalUrl = "" then some (ShortenResult.missingUrl store)
    else if isValidUrl originalUrl = false then some (ShortenResult.invalidUrl store)
    else
      match findOneByOriginalUrl store originalUrl with
      | some url =>
          some (ShortenResult.found
            ⟨url.originalUrl, BASE_URL ++ "/" ++ url.shortCode, url.shortCode⟩ store)
      | none =>
          match findFresh gen store 0 fuel with
          | none => none
          | some code =>
              some (ShortenResult.created
                ⟨trimStr originalUrl, BASE_URL ++ "/" ++ trimStr code, trimStr code⟩
                (store ++ [⟨trimStr originalUrl, trimStr code, 0, now, none⟩]))

/-- Outcome of GET /:shortCode; both constructors carry the store after the
request. -/
inductive ResolveResult where
  | notFound (store : List UrlRecord)
  | redirect (location : String) (store : List UrlRecord)
deriving DecidableEq

/-- `url.save()` after mutating the document found by `findOne`: replace
the first record whose `shortCode` matches. -/
def saveUpdate (code : String) (url' : UrlRecord) : List UrlRecord → List UrlRecord
  | [] => []
  | r :: rs => if r.shortCode == code then url' :: rs else r :: saveUpdate code url' rs

/-- GET /:shortCode (src/server.js lines 104-126): look up by `shortCode`;
404 when absent; otherwise increment `clicks`, set `lastAccessed` to the
current time, persist, and redirect to the stored `originalUrl`. -/
def resolve (now : Nat) (store : List UrlRecord) (shortCode : String) : ResolveResult :=
  match findOneByShortCode store shortCode with
  | none => ResolveResult.notFound store
  | some url =>
      ResolveResult.redirect url.originalUrl
        (saveUpdate shortCode { url with clicks := url.clicks + 1, lastAccessed := some now } store)

/-- Sequential resolutions of the same code at the given times; `none` when
some resolution hits the 404 path. -/
def resolveN (times : List Nat) (store : List UrlRecord) (code : String) :
    Option (List UrlRecord) :=
  match times with
  | [] => some store
  | t :: ts =>
    match resolve t store code with
    | ResolveResult.notFound _ => none
    | ResolveResult.redirect _ store' => resolveN ts store' code

/-- `Url.countDocuments({})` (src/server.js line 156). -/
def countDocuments : List UrlRecord → Nat
  | [] => 0
  | _ :: rs => countDocuments rs + 1

/-- Sum of the `clicks` fields, in document order. -/
def sumClicksList : List UrlRecord → Nat
  | [] => 0
  | r :: rs => r.clicks + sumClicksList rs

/-- The `$group`/`$sum` aggregation (src/server.js lines 157-159): an empty
collection produces no group at all (so `totalClicks[0]` is undefined),
otherwise a single group holding the sum of `clicks`. -/
def aggregateTotalClicks (store : List UrlRecord) : Option Nat :=
  match store with
  | [] => none
  | _ :: _ => some (sumClicksList store)

/-- GET /api/admin/stats (src/server.js lines 154-170): `totalUrls` from
`countDocuments`, `totalClicks` from the aggregation with the
`totalClicks[0]?.total || 0` fallback. -/
def stats (store : List UrlRecord) : Nat × Nat :=
  (countDocuments store, (aggregateTotalClicks store).getD 0)

/-- The upper/lower-case letters and digits. -/
def alphanumChars : List Char :=
  "ABCDEFGHIJKLMNOPQRSTUVWXYZabcdefghijklmnopqrstuvwxyz0123456789".toList

/-- Modelled from the spec: `shortid.generate` is a third-party dependency
whose implementation is not part of this repository; per the spec's
contract it takes no input and returns a short (≈7-14 character) string
over the alphanumeric alphabet, with collisions possible, so callers
re-check uniqueness against the store.  The model produces a 7-character
base-62 string deterministically from a call-index seed; repeated calls are
modelled as successive seeds of a stream. -/
def shortid.generate (seed : Nat) : String :=
  String.mk ((List.range 7).map (fun i => alphanumChars.getD (seed / 62 ^ i % 62) 'A'))

/-- The generator stream made of successive `shortid.generate` calls. -/
def shortidStream : Nat → String := fun n => shortid.generate n

/-- Store-wide uniqueness of short codes. -/
def UniqCodes (store : List UrlRecord) : Prop :=
  (store.map (fun r => r.shortCode)).Nodup

/-- States reachable from the empty store by the two mutating requests.
The shorten step carries the source-invisible side condition that the
generator's candidates are their own trimmed forms, which holds for the
alphanumeric `shortid` outputs (proved below for the model). -/
inductive Reachable : List UrlRecord → Prop where
  | empty : Reachable []
  | shortenStep (gen : Nat → String) (now : Nat) (store : List UrlRecord)
      (input : Option String) (fuel : Nat) (resp : ShortenResponse)
      (store' : List UrlRecord) :
      Reachable store → (∀ n, trimStr (gen n) = gen n) →
      shorten gen now store input fuel = some (ShortenResult.created resp store') →
      Reachable store'
  | resolveStep (now : Nat) (store : List UrlRecord) (code loc : String)
      (store' : List UrlRecord) :
      Reachable store →
      resolve now store code = ResolveResult.redirect loc store' →
      Reachable store'

/-! ### Helper lemmas -/

theorem dropWhile_eq_self_of (p : Char → Bool) (l : List Char)
    (h : ∀ c ∈ l, p c = false) : l.dropWhile p = l := by
  cases l with
  | nil => rfl
  | cons a as =>
    have ha : p a = false := h a (List.mem_cons_self a as)
    simp [List.dropWhile, ha]

theorem dropEnds_eq_self (p : Char → Bool) (l : List Char)
    (h : ∀ c ∈ l, p c = false) : dropEnds p l = l := by
  unfold dropEnds
  rw [dropWhile_eq_self_of p l h]
  rw [dropWhile_eq_self_of p l.reverse (fun c hc => h c (List.mem_reverse.mp hc))]
  exact List.reverse_reverse l

theorem string_mk_toList (s : String) : String.mk s.toList = s := rfl

theorem trimStr_eq_self (s : String) (h : ∀ c ∈ s.toList, isJsSpace c = false) :
    trimStr s = s := by
  unfold trimStr
  rw [dropEnds_eq_self _ _ h, string_mk_toList]

theorem alphanumChars_length : alphanumChars.length = 62 := rfl

theorem alphanumChars_getD_mem (k : Nat) :
    alphanumChars.getD (k % 62) 'A' ∈ alphanumChars := by
  have hlt : k % 62 < alphanumChars.length := by
    rw [alphanumChars_length]; exact Nat.mod_lt _ (by norm_num)
  rw [List.getD_eq_getElem _ _ hlt]
  exact List.getElem_mem hlt

theorem generate_toList (seed : Nat) :
    (shortid.generate seed).toList =
      (List.range 7).map (fun i => alphanumChars.getD (seed / 62 ^ i % 62) 'A') := rfl

theorem generate_mem_alphanum (seed : Nat) :
    ∀ c ∈ (shortid.generate seed).toList, c ∈ alphanumChars := by
  intro c hc
  rw [generate_toList] at hc
  obtain ⟨i, _, rfl⟩ := List.mem_map.mp hc
  exact alphanumChars_getD_mem _

theorem alphanum_not_space : ∀ c ∈ alphanumChars, isJsSpace c = false := by decide

theorem trimStr_generate (seed : Nat) :
    trimStr (shortid.generate seed) = shortid.generate seed :=
  trimStr_eq_self _ (fun c hc => alphanum_not_space c (generate_mem_alphanum seed c hc))

theorem shortidStream_trim : ∀ n, trimStr (shortidStream n) = shortidStream n :=
  fun n => trimStr_generate n

theorem generate_length (seed : Nat) : (shortid.generate seed).length = 7 := by
  show ((List.range 7).map _).length = 7
  rw [List.length_map, List.length_range]

theorem findOneBy_eq_some {key : UrlRecord → String} :
    ∀ {store : List UrlRecord} {v : String} {r : UrlRecord},
      findOneBy key store v = some r → key r = v ∧ r ∈ store := by
  intro store
  induction store with
  | nil => intro v r h; simp [findOneBy] at h
  | cons a rs ih =>
    intro v r h
    by_cases hb : key a == v
    · simp [findOneBy, hb] at h
      subst h
      exact ⟨eq_of_beq hb, List.mem_cons_self a rs⟩
    · simp [findOneBy, hb] at h
      obtain ⟨hk, hm⟩ := ih h
      exact ⟨hk, List.mem_cons_of_mem a hm⟩

theorem findOneBy_eq_none {key : UrlRecord → String} :
    ∀ {store : List UrlRecord} {v : String},
      findOneBy key store v = none → ∀ r ∈ store, key r ≠ v := by
  intro store
  induction store with
  | nil => intro v _ r hr; simp at hr
  | cons a rs ih =>
    intro v h r hr
    by_cases hb : key a == v
    · simp [findOneBy, hb] at h
    · simp [findOneBy, hb] at h
      rcases List.mem_cons.mp hr with rfl | hm
      · exact fun he => hb (by rw [he]; exact beq_self_eq_true v)
      · exact ih h r hm

theorem findOneBy_eq_none_of (key : UrlRecord → String) :
    ∀ (store : List UrlRecord) (v : String),
      (∀ r ∈ store, key r ≠ v) → findOneBy key store v = none := by
  intro store
  induction store with
  | nil => intro v _; rfl
  | cons a rs ih =>
    intro v h
    have ha : (key a == v) = false := by
      cases hb : key a == v
      · rfl
      · exact absurd (eq_of_beq hb) (h a (List.mem_cons_self a rs))
    simp [findOneBy, ha]
    exact ih v (fun r hr => h r (List.mem_cons_of_mem a hr))

theorem findOneBy_append_none {key : UrlRecord → String} :
    ∀ {s1 : List UrlRecord} (s2 : List UrlRecord) {v : String},
      findOneBy key s1 v = none → findOneBy key (s1 ++ s2) v = findOneBy key s2 v := by
  intro s1
  induction s1 with
  | nil => intro s2 v _; rfl
  | cons a rs ih =>
    intro s2 v h
    by_cases hb : key a == v
    · simp [findOneBy, hb] at h
    · simp [findOneBy, hb] at h ⊢
      exact ih s2 h

theorem findOneBy_self_of_nodup {key : UrlRecord → String} :
    ∀ {store : List UrlRecord} {r : UrlRecord},
      (store.map key).Nodup → r ∈ store → findOneBy key store (key r) = some r := by
  intro store
  induction store with
  | nil => intro r _ hr; simp at hr
  | cons a rs ih =>
    intro r hnd hr
    have hnd' := hnd
    rw [List.map_cons, List.nodup_cons] at hnd'
    rcases List.mem_cons.mp hr with rfl | hm
    · simp [findOneBy, beq_self_eq_true]
    · have hne : (key a == key r) = false := by
        cases hb : key a == key r
        · rfl
        · exact absurd (by rw [eq_of_beq hb]; exact List.mem_map_of_mem key hm) hnd'.1
      simp [findOneBy, hne]
      exact ih hnd'.2 hm

theorem saveUpdate_map_shortCode {code : String} {r' : UrlRecord}
    (h : r'.shortCode = code) :
    ∀ store : List UrlRecord,
      (saveUpdate code r' store).map (fun x => x.shortCode) =
        store.map (fun x => x.shortCode) := by
  intro store
  induction store with
  | nil => rfl
  | cons a rs ih =>
    by_cases hb : a.shortCode == code
    · simp [saveUpdate, hb]
      rw [h, eq_of_beq hb]
    · simp [saveUpdate, hb]
      exact ih

theorem findOneByShortCode_saveUpdate {code : String} {r' : UrlRecord}
    (h2 : r'.shortCode = code) :
    ∀ {store : List UrlRecord} {r : UrlRecord},
      findOneByShortCode store code = some r →
      findOneByShortCode (saveUpdate code r' store) code = some r' := by
  intro store
  induction store with
  | nil => intro r h; simp [findOneByShortCode, findOneBy] at h
  | cons a rs ih =>
    intro r h
    by_cases hb : a.shortCode == code
    · simp [saveUpdate, hb, findOneByShortCode, findOneBy, h2]
    · simp only [findOneByShortCode, findOneBy, hb] at h
      simp only [saveUpdate, hb, if_false, Bool.false_eq_true, ite_false]
      simp only [findOneByShortCode, findOneBy, hb, Bool.false_eq_true, ite_false]
      exact ih h

theorem saveUpdate_saveUpdate {code : String} {r1 r2 : UrlRecord}
    (h : r1.shortCode = code) :
    ∀ store : List UrlRecord,
      saveUpdate code r2 (saveUpdate code r1 store) = saveUpdate code r2 store := by
  intro store
  induction store with
  | nil => rfl
  | cons a rs ih =>
    by_cases hb : a.shortCode == code
    · have h1 : (r1.shortCode == code) = true := by rw [h]; exact beq_self_eq_true code
      simp [saveUpdate, hb, h1]
    · simp [saveUpdate, hb]
      exact ih

theorem findFresh_sound {gen : Nat → String} {store : List UrlRecord} :
    ∀ (fuel start : Nat) {c : String},
      findFresh gen store start fuel = some c →
      findOneByShortCode store c = none ∧ ∃ n, c = gen n := by
  intro fuel
  induction fuel with
  | zero => intro start c h; simp [findFresh] at h
  | succ fuel ih =>
    intro start c h
    by_cases hf : findOneByShortCode store (gen start) = none
    · simp [findFresh, hf] at h
      subst h
      exact ⟨hf, start, rfl⟩
    · simp [findFresh, hf] at h
      exact ih (start + 1) h

theorem findFresh_none_of_collide {gen : Nat → String} {store : List UrlRecord}
    (h : ∀ m, findOneByShortCode store (gen m) ≠ none) :
    ∀ (fuel start : Nat), findFresh gen store start fuel = none := by
  intro fuel
  induction fuel with
  | zero => intro start; rfl
  | succ fuel ih =>
    intro start
    simp [findFresh, h start]
    exact ih (start + 1)

theorem findFresh_some_of_fresh {gen : Nat → String} {store : List UrlRecord} :
    ∀ (fuel start n : Nat), start ≤ n → n < start + fuel →
      findOneByShortCode store (gen n) = none →
      ∃ c, findFresh gen store start fuel = some c ∧
        findOneByShortCode store c = none := by
  intro fuel
  induction fuel with
  | zero => intro start n h1 h2 _; omega
  | succ fuel ih =>
    intro start n h1 h2 hfresh
    by_cases hf : findOneByShortCode store (gen start) = none
    · exact ⟨gen start, by simp [findFresh, hf], hf⟩
    · have hne : start ≠ n := fun he => hf (he ▸ hfresh)
      obtain ⟨c, hc1, hc2⟩ := ih (start + 1) n (by omega) (by omega) hfresh
      exact ⟨c, by simp [findFresh, hf]; exact hc1, hc2⟩

theorem shorten_created_inv {gen : Nat → String} {now : Nat}
    {store : List UrlRecord} {input : Option String} {fuel : Nat}
    {resp : ShortenResponse} {store' : List UrlRecord}
    (h : shorten gen now store input fuel = some (ShortenResult.created resp store')) :
    ∃ u code, input = some u ∧ isValidUrl u = true ∧
      findOneByOriginalUrl store u = none ∧
      findFresh gen store 0 fuel = some code ∧
      resp = ⟨trimStr u, BASE_URL ++ "/" ++ trimStr code, trimStr code⟩ ∧
      store' = store ++ [⟨trimStr u, trimStr code, 0, now, none⟩] := by
  cases input with
  | none => simp [shorten] at h
  | some u =>
    by_cases hu : u = ""
    · simp [shorten, hu] at h
    · by_cases hv : isValidUrl u = false
      · simp [shorten, hu, hv] at h
      · cases hfind : findOneByOriginalUrl store u with
        | some r => simp [shorten, hu, hv, hfind] at h
        | none =>
          cases hff : findFresh gen store 0 fuel with
          | none => simp [shorten, hu, hv, hfind, hff] at h
          | some code =>
            simp [shorten, hu, hv, hfind, hff] at h
            exact ⟨u, code, rfl, eq_true_of_ne_false hv, hfind, rfl,
              h.1.symm, h.2.symm⟩

theorem shorten_found_inv {gen : Nat → String} {now : Nat}
    {store : List UrlRecord} {input : Option String} {fuel : Nat}
    {resp : ShortenResponse} {store' : List UrlRecord}
    (h : shorten gen now store input fuel = some (ShortenResult.found resp store')) :
    store' = store ∧ ∃ u r, input = some u ∧
      findOneByOriginalUrl store u = some r ∧
      resp = ⟨r.originalUrl, BASE_URL ++ "/" ++ r.shortCode, r.shortCode⟩ := by
  cases input with
  | none => simp [shorten] at h
  | some u =>
    by_cases hu : u = ""
    · simp [shorten, hu] at h
    · by_cases hv : isValidUrl u = false
      · simp [shorten, hu, hv] at h
      · cases hfind : findOneByOriginalUrl store u with
        | none =>
          cases hff : findFresh gen store 0 fuel with
          | none => simp [shorten, hu, hv, hfind, hff] at h
          | some code => simp [shorten, hu, hv, hfind, hff] at h
        | some r =>
          simp [shorten, hu, hv, hfind] at h
          exact ⟨h.2.symm, u, r, rfl, hfind, h.1.symm⟩

/-! ### Claim theorems -/

/-- C7: for every shortCode with no record in the store, `resolve` answers
the 404 NotFound path and returns the store completely unchanged: no
record's clicks or lastAccessed is mutated and no record is created. -/
theorem resolve_absent_notFound (now : Nat) (store : List UrlRecord) (code : String)
    (h : findOneByShortCode store code = none) :
    resolve now store code = ResolveResult.notFound store := by
  unfold resolve
  rw [h]

/-- C7 witness: resolving a code absent from a one-record store leaves that
store untouched. -/
theorem resolve_absent_notFound_witness :
    resolve 3 [⟨"http://a.com", "abc", 2, 0, none⟩] "zzz" =
      ResolveResult.notFound [⟨"http://a.com", "abc", 2, 0, none⟩] :=
  resolve_absent_notFound 3 [⟨"http://a.com", "abc", 2, 0, none⟩] "zzz" (by decide)

theorem countDocuments_eq_length :
    ∀ store : List UrlRecord, countDocuments store = store.length := by
  intro store
  induction store with
  | nil => rfl
  | cons a rs ih => simp [countDocuments, ih]

theorem sumClicksList_eq_sum :
    ∀ store : List UrlRecord,
      sumClicksList store = (store.map (fun r => r.clicks)).sum := by
  intro store
  induction store with
  | nil => rfl
  | cons a rs ih => simp [sumClicksList, ih]

/-- C8: `stats` returns totalUrls equal to the number of records and
totalClicks equal to the sum of the clicks fields, with totalClicks 0 on an
empty store; being a pure function of the store, it mutates nothing. -/
theorem stats_correct (store : List UrlRecord) :
    stats store = (store.length, (store.map (fun r => r.clicks)).sum) ∧
      stats [] = (0, 0) := by
  constructor
  · cases store with
    | nil => rfl
    | cons a rs =>
      unfold stats aggregateTotalClicks
      rw [countDocuments_eq_length]
      simp [sumClicksList_eq_sum]
  · rfl

/-- C9: every candidate the modelled generator produces is a short string
(length 7, within the 7-14 range) drawn exclusively from the alphanumeric
alphabet of upper-case letters, lower-case letters and digits; it reads
nothing but its call index, so a retry loop can call it repeatedly. -/
theorem generate_short_alphanumeric (seed : Nat) :
    7 ≤ (shortid.generate seed).length ∧ (shortid.generate seed).length ≤ 14 ∧
      ∀ c ∈ (shortid.generate seed).toList, c ∈ alphanumChars := by
  refine ⟨?_, ?_, generate_mem_alphanum seed⟩
  all_goals rw [generate_length seed]
  all_goals omega

/-- C9 witness: the first candidate has length in range and its characters,
such as the letter A, are alphanumeric. -/
theorem generate_short_alphanumeric_witness :
    7 ≤ (shortid.generate 0).length ∧ ('A' : Char) ∈ alphanumChars :=
  ⟨(generate_short_alphanumeric 0).1,
   (generate_short_alphanumeric 0).2.2 'A' (by decide)⟩

theorem resolveN_cons (t : Nat) (ts : List Nat) (store : List UrlRecord)
    (code : String) {loc : String} {store' : List UrlRecord}
    (h : resolve t store code = ResolveResult.redirect loc store') :
    resolveN (t :: ts) store code = resolveN ts store' code := by
  show (match resolve t store code with
        | ResolveResult.notFound _ => none
        | ResolveResult.redirect _ store2 => resolveN ts store2 code) =
      resolveN ts store' code
  rw [h]

/-- C5: resolving an existing code at times `t1, ..., tN` (N >= 1) succeeds
every time and ends with the store in which exactly the matched record has
been replaced by a copy whose clicks grew by N and whose lastAccessed is the
last call's time; originalUrl, shortCode and createdAt are carried over
unchanged, and `saveUpdate` leaves every other record as it was. -/
theorem resolve_click_accounting :
    ∀ (times : List Nat) (store : List UrlRecord) (code : String) (r : UrlRecord)
      (hfind : findOneByShortCode store code = some r) (hne : times ≠ []),
      resolveN times store code =
        some (saveUpdate code
          { r with clicks := r.clicks + times.length,
                   lastAccessed := some (times.getLast hne) } store) := by
  intro times
  induction times with
  | nil => intro store code r _ hne; exact absurd rfl hne
  | cons t ts ih =>
    intro store code r hfind hne
    have hsc : r.shortCode = code := (findOneBy_eq_some hfind).1
    have hsc1 : (UrlRecord.mk r.originalUrl r.shortCode (r.clicks + 1) r.createdAt
        (some t)).shortCode = code := hsc
    have hstep : resolve t store code =
        ResolveResult.redirect r.originalUrl
          (saveUpdate code
            { r with clicks := r.clicks + 1, lastAccessed := some t } store) := by
      unfold resolve
      rw [hfind]
    cases ts with
    | nil =>
      rw [resolveN_cons t [] store code hstep]
      rfl
    | cons t2 ts2 =>
      rw [resolveN_cons t (t2 :: ts2) store code hstep]
      rw [ih (saveUpdate code { r with clicks := r.clicks + 1, lastAccessed := some t } store)
        code { r with clicks := r.clicks + 1, lastAccessed := some t }
        (findOneByShortCode_saveUpdate hsc1 hfind) (List.cons_ne_nil t2 ts2)]
      rw [saveUpdate_saveUpdate hsc1]
      have hlen : r.clicks + 1 + (t2 :: ts2).length = r.clicks + (t :: t2 :: ts2).length := by
        simp [List.length_cons]
        omega
      have hlast : (t2 :: ts2).getLast (List.cons_ne_nil t2 ts2) =
          (t :: t2 :: ts2).getLast hne := (List.getLast_cons (List.cons_ne_nil t2 ts2)).symm
      simp only [UrlRecord.mk.injEq]
      simp only [hlen, hlast]

/-- C5 witness: two resolutions of code abc at times 5 and 7 raise clicks
from 3 to 5 and set lastAccessed to 7, touching nothing else. -/
theorem resolve_click_accounting_witness :
    resolveN [5, 7] [⟨"http://a.com", "abc", 3, 0, none⟩] "abc" =
      some [⟨"http://a.com", "abc", 5, 0, some 7⟩] := by
  rw [resolve_click_accounting [5, 7] [⟨"http://a.com", "abc", 3, 0, none⟩] "abc"
    ⟨"http://a.com", "abc", 3, 0, none⟩ (by decide) (by decide)]
  rfl

theorem resolve_redirect_inv {now : Nat} {store : List UrlRecord}
    {code loc : String} {store' : List UrlRecord}
    (h : resolve now store code = ResolveResult.redirect loc store') :
    ∃ url, findOneByShortCode store code = some url ∧ loc = url.originalUrl ∧
      store' = saveUpdate code
        { url with clicks := url.clicks + 1, lastAccessed := some now } store := by
  unfold resolve at h
  cases hfind : findOneByShortCode store code with
  | none => rw [hfind] at h; cases h
  | some url =>
    rw [hfind] at h
    injection h with h1 h2
    exact ⟨url, rfl, h1.symm, h2.symm⟩

theorem reachable_uniq : ∀ {store : List UrlRecord}, Reachable store → UniqCodes store := by
  intro store h
  induction h with
  | empty => simp [UniqCodes]
  | shortenStep gen now store input fuel resp store' hreach hg hs ih =>
    obtain ⟨u, code, hinput, hvalid, hfind, hff, hresp, hstore'⟩ := shorten_created_inv hs
    obtain ⟨hfresh, n, hcn⟩ := findFresh_sound fuel 0 hff
    have htrim : trimStr code = code := by rw [hcn]; exact hg n
    subst hstore'
    unfold UniqCodes at ih ⊢
    rw [List.map_append, List.nodup_append]
    refine ⟨ih, List.nodup_singleton _, ?_⟩
    intro a ha hb
    simp only [List.map_cons, List.map_nil, List.mem_singleton] at hb
    subst hb
    rw [htrim] at ha
    obtain ⟨r, hr, hkey⟩ := List.mem_map.mp ha
    exact findOneBy_eq_none hfresh r hr hkey
  | resolveStep now store code loc store' hreach hres ih =>
    obtain ⟨url, hfind, hloc, hstore'⟩ := resolve_redirect_inv hres
    have hsc : url.shortCode = code := (findOneBy_eq_some hfind).1
    subst hstore'
    unfold UniqCodes at ih ⊢
    have hsc' : (UrlRecord.mk url.originalUrl url.shortCode (url.clicks + 1)
        url.createdAt (some now)).shortCode = code := hsc
    rw [saveUpdate_map_shortCode hsc']
    exact ih

/-- C2: no two records ever share a shortCode: every state reachable from
the empty store by shorten and resolve steps has pairwise-distinct codes
(the fresh code is checked against the store before the insert commits),
and any two shorten calls that mint records in sequence return distinct
shortCodes. -/
theorem shortCode_uniqueness :
    (∀ store : List UrlRecord, Reachable store → UniqCodes store) ∧
    (∀ (gen1 gen2 : Nat → String) (now1 now2 : Nat) (store : List UrlRecord)
       (input1 input2 : Option String) (fuel1 fuel2 : Nat)
       (resp1 resp2 : ShortenResponse) (store1 store2 : List UrlRecord),
       (∀ n, trimStr (gen1 n) = gen1 n) → (∀ n, trimStr (gen2 n) = gen2 n) →
       shorten gen1 now1 store input1 fuel1 = some (ShortenResult.created resp1 store1) →
       shorten gen2 now2 store1 input2 fuel2 = some (ShortenResult.created resp2 store2) →
       resp2.shortCode ≠ resp1.shortCode) := by
  constructor
  · intro store h
    exact reachable_uniq h
  · intro gen1 gen2 now1 now2 store input1 input2 fuel1 fuel2 resp1 resp2 store1 store2
      hg1 hg2 h1 h2
    obtain ⟨u1, c1, _, _, _, hff1, hresp1, hstore1⟩ := shorten_created_inv h1
    obtain ⟨u2, c2, _, _, _, hff2, hresp2, _⟩ := shorten_created_inv h2
    obtain ⟨_, n1, hcn1⟩ := findFresh_sound fuel1 0 hff1
    obtain ⟨hfresh2, n2, hcn2⟩ := findFresh_sound fuel2 0 hff2
    have htrim1 : trimStr c1 = c1 := by rw [hcn1]; exact hg1 n1
    have htrim2 : trimStr c2 = c2 := by rw [hcn2]; exact hg2 n2
    have hrec : (⟨trimStr u1, trimStr c1, 0, now1, none⟩ : UrlRecord) ∈ store1 := by
      rw [hstore1]; exact List.mem_append_right _ (List.mem_singleton_self _)
    have hne := findOneBy_eq_none hfresh2 _ hrec
    simp only at hne
    rw [htrim1] at hne
    rw [hresp1, hresp2]
    show trimStr c2 ≠ trimStr c1
    rw [htrim1, htrim2]
    exact fun he => hne he.symm

/-- C2 witness: a store reached by one creating shorten step has
pairwise-distinct codes, and two successive creating calls from the empty
store returned the distinct codes BAAAAAA and AAAAAAA. -/
theorem shortCode_uniqueness_witness :
    UniqCodes [⟨"http://a.com", "AAAAAAA", 0, 0, none⟩] ∧
      ("BAAAAAA" : String) ≠ "AAAAAAA" := by
  constructor
  · exact shortCode_uniqueness.1 [⟨"http://a.com", "AAAAAAA", 0, 0, none⟩]
      (Reachable.shortenStep shortidStream 0 [] (some "http://a.com") 1
        ⟨"http://a.com", "http://localhost:3000/AAAAAAA", "AAAAAAA"⟩
        [⟨"http://a.com", "AAAAAAA", 0, 0, none⟩]
        Reachable.empty shortidStream_trim (by decide))
  · exact shortCode_uniqueness.2 shortidStream shortidStream 0 1 []
      (some "http://a.com") (some "http://b.com") 1 2
      ⟨"http://a.com", "http://localhost:3000/AAAAAAA", "AAAAAAA"⟩
      ⟨"http://b.com", "http://localhost:3000/BAAAAAA", "BAAAAAA"⟩
      [⟨"http://a.com", "AAAAAAA", 0, 0, none⟩]
      [⟨"http://a.com", "AAAAAAA", 0, 0, none⟩, ⟨"http://b.com", "BAAAAAA", 0, 1, none⟩]
      shortidStream_trim shortidStream_trim (by decide) (by decide)

theorem isValidUrl_empty : isValidUrl "" = false := by decide

theorem shorten_fast_path {gen : Nat → String} {now : Nat} {store : List UrlRecord}
    {u : String} {fuel : Nat} {r : UrlRecord}
    (hv : isValidUrl u = true) (hfind : findOneByOriginalUrl store u = some r) :
    shorten gen now store (some u) fuel =
      some (ShortenResult.found
        ⟨r.originalUrl, BASE_URL ++ "/" ++ r.shortCode, r.shortCode⟩ store) := by
  have hne : ¬ (u = "") := by
    intro he
    rw [he] at hv
    rw [isValidUrl_empty] at hv
    cases hv
  simp [shorten, hne, hv, hfind]

/-- C1 (amended): when a record whose stored originalUrl exactly equals the
raw input exists, shorten returns that record's shortCode with the store
unchanged — no new record, no counters touched; and when the input equals
its own trimmed form, a call that created a record followed by a second call
with the identical input returns the same shortCode and again leaves the
store unchanged, so the store keeps exactly one record for that input. -/
theorem shorten_idempotent_amended :
    (∀ (gen : Nat → String) (now : Nat) (store : List UrlRecord) (u : String)
       (fuel : Nat) (r : UrlRecord),
       isValidUrl u = true → findOneByOriginalUrl store u = some r →
       shorten gen now store (some u) fuel =
         some (ShortenResult.found
           ⟨r.originalUrl, BASE_URL ++ "/" ++ r.shortCode, r.shortCode⟩ store)) ∧
    (∀ (gen gen2 : Nat → String) (now now2 : Nat) (store store1 : List UrlRecord)
       (u : String) (fuel fuel2 : Nat) (resp : ShortenResponse),
       trimStr u = u →
       shorten gen now store (some u) fuel = some (ShortenResult.created resp store1) →
       shorten gen2 now2 store1 (some u) fuel2 =
         some (ShortenResult.found
           ⟨resp.originalUrl, BASE_URL ++ "/" ++ resp.shortCode, resp.shortCode⟩ store1)) := by
  constructor
  · intro gen now store u fuel r hv hfind
    exact shorten_fast_path hv hfind
  · intro gen gen2 now now2 store store1 u fuel fuel2 resp htrimu h1
    obtain ⟨u', c, hinput, hvalid, hfind, hff, hresp, hstore1⟩ := shorten_created_inv h1
    injection hinput with hu
    subst hu
    have hrecfind : findOneByOriginalUrl store1 u =
        some ⟨trimStr u, trimStr c, 0, now, none⟩ := by
      rw [hstore1]
      unfold findOneByOriginalUrl
      rw [findOneBy_append_none _ hfind]
      have : ((⟨trimStr u, trimStr c, 0, now, none⟩ : UrlRecord).originalUrl == u) = true := by
        rw [show (⟨trimStr u, trimStr c, 0, now, none⟩ : UrlRecord).originalUrl = trimStr u
          from rfl, htrimu]
        exact beq_self_eq_true u
      simp [findOneBy, this]
    rw [shorten_fast_path hvalid hrecfind, hresp]

/-- C1 witness: the fast path returns the stored code abc for an exact
match, and after a creating call for http://b.com the second identical call
answers found with the same code AAAAAAA and an unchanged store. -/
theorem shorten_idempotent_amended_witness :
    shorten shortidStream 0 [⟨"http://a.com", "abc", 5, 0, none⟩]
        (some "http://a.com") 1 =
      some (ShortenResult.found
        ⟨"http://a.com", "http://localhost:3000/abc", "abc"⟩
        [⟨"http://a.com", "abc", 5, 0, none⟩]) ∧
    shorten shortidStream 1 [⟨"http://b.com", "AAAAAAA", 0, 0, none⟩]
        (some "http://b.com") 5 =
      some (ShortenResult.found
        ⟨"http://b.com", "http://localhost:3000/AAAAAAA", "AAAAAAA"⟩
        [⟨"http://b.com", "AAAAAAA", 0, 0, none⟩]) := by
  constructor
  · exact shorten_idempotent_amended.1 shortidStream 0
      [⟨"http://a.com", "abc", 5, 0, none⟩] "http://a.com" 1
      ⟨"http://a.com", "abc", 5, 0, none⟩ (by decide) (by decide)
  · exact shorten_idempotent_amended.2 shortidStream shortidStream 0 1 []
      [⟨"http://b.com", "AAAAAAA", 0, 0, none⟩] "http://b.com" 1 5
      ⟨"http://b.com", "http://localhost:3000/AAAAAAA", "AAAAAAA"⟩
      (by decide) (by decide)

/-- C1 counterexample: the input " http://a.com" (leading space) is accepted
by the validator, but the stored originalUrl is trimmed while the
idempotence lookup uses the raw string, so the identical second call misses
the fast path and mints a second record with a different shortCode — two
successive shorten calls with identical input do not return the same code
and the store does not hold exactly one record for it. -/
theorem shorten_idempotent_counterexample :
    shorten shortidStream 0 [] (some " http://a.com") 1 =
      some (ShortenResult.created
        ⟨"http://a.com", "http://localhost:3000/AAAAAAA", "AAAAAAA"⟩
        [⟨"http://a.com", "AAAAAAA", 0, 0, none⟩]) ∧
    shorten shortidStream 1 [⟨"http://a.com", "AAAAAAA", 0, 0, none⟩]
        (some " http://a.com") 2 =
      some (ShortenResult.created
        ⟨"http://a.com", "http://localhost:3000/BAAAAAA", "BAAAAAA"⟩
        [⟨"http://a.com", "AAAAAAA", 0, 0, none⟩,
         ⟨"http://a.com", "BAAAAAA", 0, 1, none⟩]) ∧
    ("BAAAAAA" : String) ≠ "AAAAAAA" := by decide

/-- C3 (amended): the `while (!isUnique)` loop has no retry ceiling and no
GenerationExhausted outcome: when every candidate the generator yields
collides with a stored shortCode the loop never finishes for any amount of
fuel, so shorten produces no outcome at all; and as soon as some candidate
within the fuel bound is fresh, the loop returns a code absent from the
store. -/
theorem retry_loop_amended :
    (∀ (gen : Nat → String) (store : List UrlRecord) (fuel start : Nat),
       (∀ m, findOneByShortCode store (gen m) ≠ none) →
       findFresh gen store start fuel = none) ∧
    (∀ (gen : Nat → String) (now : Nat) (store : List UrlRecord) (u : String)
       (fuel : Nat),
       isValidUrl u = true → findOneByOriginalUrl store u = none →
       (∀ m, findOneByShortCode store (gen m) ≠ none) →
       shorten gen now store (some u) fuel = none) ∧
    (∀ (gen : Nat → String) (store : List UrlRecord) (fuel n : Nat),
       n < fuel → findOneByShortCode store (gen n) = none →
       ∃ c, findFresh gen store 0 fuel = some c ∧
         findOneByShortCode store c = none) := by
  refine ⟨?_, ?_, ?_⟩
  · intro gen store fuel start h
    exact findFresh_none_of_collide h fuel start
  · intro gen now store u fuel hv hfind h
    have hne : ¬ (u = "") := by
      intro he
      rw [he] at hv
      rw [isValidUrl_empty] at hv
      cases hv
    simp [shorten, hne, hv, hfind, findFresh_none_of_collide h fuel 0]
  · intro gen store fuel n hlt hfresh
    exact findFresh_some_of_fresh fuel 0 n (Nat.zero_le n) (by omega) hfresh

/-- C3 witness: with a constantly colliding generator the loop reports no
outcome at fuel 7, shorten likewise; with the shortid stream and a fresh
first candidate the loop returns a code that is absent from the store. -/
theorem retry_loop_amended_witness :
    findFresh (fun _ => "c0") [⟨"http://x.com", "c0", 0, 0, none⟩] 0 7 = none ∧
    shorten (fun _ => "c0") 1 [⟨"http://x.com", "c0", 0, 0, none⟩]
      (some "http://b.com") 7 = none ∧
    (∃ c, findFresh shortidStream [⟨"http://x.com", "c0", 0, 0, none⟩] 0 1 = some c ∧
      findOneByShortCode [⟨"http://x.com", "c0", 0, 0, none⟩] c = none) := by
  refine ⟨retry_loop_amended.1 (fun _ => "c0") [⟨"http://x.com", "c0", 0, 0, none⟩]
      7 0 (fun _ =>
        (by decide : findOneByShortCode
          [⟨"http://x.com", "c0", 0, 0, none⟩] "c0" ≠ none)),
    retry_loop_amended.2.1 (fun _ => "c0") 1 [⟨"http://x.com", "c0", 0, 0, none⟩]
      "http://b.com" 7 (by decide) (by decide) (fun _ =>
        (by decide : findOneByShortCode
          [⟨"http://x.com", "c0", 0, 0, none⟩] "c0" ≠ none)),
    retry_loop_amended.2.2 shortidStream [⟨"http://x.com", "c0", 0, 0, none⟩]
      1 0 (by decide) (by decide)⟩

/-- C3 counterexample: with every candidate colliding, shorten has still
produced no outcome after 20 and after 50 loop iterations — there is no
10-attempt ceiling and no GenerationExhausted failure; the loop simply keeps
running. -/
theorem retry_loop_counterexample :
    shorten (fun _ => "c0") 0 [⟨"http://x.com", "c0", 0, 0, none⟩]
        (some "http://a.com") 20 = none ∧
    shorten (fun _ => "c0") 0 [⟨"http://x.com", "c0", 0, 0, none⟩]
        (some "http://a.com") 50 = none := by decide

/-- C6 (amended): an absent or empty originalUrl yields the MissingUrl
error; a non-empty input rejected by the URL parser (no scheme at all, or a
special scheme such as http/https without a nonempty host) yields the
InvalidUrl error; in both cases the store is returned unchanged, so no
record is created.  Well-formed absolute URLs without a host under
non-special schemes (such as mailto:) are accepted rather than rejected. -/
theorem validation_amended :
    ∀ (gen : Nat → String) (now : Nat) (store : List UrlRecord) (u : String)
      (fuel : Nat),
      shorten gen now store none fuel = some (ShortenResult.missingUrl store) ∧
      shorten gen now store (some "") fuel = some (ShortenResult.missingUrl store) ∧
      (u ≠ "" → isValidUrl u = false →
        shorten gen now store (some u) fuel = some (ShortenResult.invalidUrl store)) := by
  intro gen now store u fuel
  refine ⟨rfl, by simp [shorten], ?_⟩
  intro hne hv
  simp [shorten, hne, hv]

/-- C6 witness: a missing body key gives MissingUrl; the unparseable input
"not a url" gives InvalidUrl; both leave the empty store empty. -/
theorem validation_amended_witness :
    shorten shortidStream 0 [] none 1 = some (ShortenResult.missingUrl []) ∧
    shorten shortidStream 0 [] (some "") 1 = some (ShortenResult.missingUrl []) ∧
    shorten shortidStream 0 [] (some "not a url") 1 =
      some (ShortenResult.invalidUrl []) :=
  ⟨(validation_amended shortidStream 0 [] "x" 1).1,
   (validation_amended shortidStream 0 [] "x" 1).2.1,
   (validation_amended shortidStream 0 [] "not a url" 1).2.2 (by decide) (by decide)⟩

/-- C6 counterexample: "mailto:test" is non-empty and has no host, so the
claim demands the InvalidUrl error, but the URL constructor accepts any
non-special scheme without a host, so shorten accepts it and creates a
record instead. -/
theorem validation_counterexample :
    isValidUrl "mailto:test" = true ∧
    shorten shortidStream 0 [] (some "mailto:test") 1 =
      some (ShortenResult.created
        ⟨"mailto:test", "http://localhost:3000/AAAAAAA", "AAAAAAA"⟩
        [⟨"mailto:test", "AAAAAAA", 0, 0, none⟩]) := by decide

theorem resolve_found {now : Nat} {store : List UrlRecord} {code : String}
    {url : UrlRecord} (h : findOneByShortCode store code = some url) :
    resolve now store code = ResolveResult.redirect url.originalUrl
      (saveUpdate code
        { url with clicks := url.clicks + 1, lastAccessed := some now } store) := by
  unfold resolve
  rw [h]

/-- C4 (amended): when `shorten u` creates a record with code c, resolving c
redirects to the stored originalUrl, which is trim(u) — equal to u exactly
when u carries no leading or trailing whitespace; when `shorten u` answers
via the fast path for an existing exact-match record, resolving the returned
code redirects to u itself. -/
theorem round_trip_amended :
    ∀ (gen : Nat → String) (now now2 : Nat) (store store2 : List UrlRecord)
      (u : String) (fuel : Nat) (resp : ShortenResponse),
      (∀ n, trimStr (gen n) = gen n) → UniqCodes store →
      (shorten gen now store (some u) fuel = some (ShortenResult.created resp store2) →
        ∃ st3, resolve now2 store2 resp.shortCode =
          ResolveResult.redirect (trimStr u) st3) ∧
      (shorten gen now store (some u) fuel = some (ShortenResult.found resp store2) →
        ∃ st3, resolve now2 store2 resp.shortCode =
          ResolveResult.redirect u st3) := by
  intro gen now now2 store store2 u fuel resp hg huniq
  constructor
  · intro h
    obtain ⟨u', c, hinput, hvalid, hfind, hff, hresp, hstore2⟩ := shorten_created_inv h
    injection hinput with hu
    subst hu
    obtain ⟨hfresh, n, hcn⟩ := findFresh_sound fuel 0 hff
    have htrim : trimStr c = c := by rw [hcn]; exact hg n
    subst hresp
    subst hstore2
    rw [htrim]
    have hfresh' : findOneBy (fun r => r.shortCode) store c = none := hfresh
    have hlook : findOneByShortCode (store ++ [⟨trimStr u, c, 0, now, none⟩]) c =
        some ⟨trimStr u, c, 0, now, none⟩ := by
      unfold findOneByShortCode
      rw [findOneBy_append_none _ hfresh']
      simp [findOneBy]
    refine ⟨saveUpdate c ⟨trimStr u, c, 0 + 1, now, some now2⟩
      (store ++ [⟨trimStr u, c, 0, now, none⟩]), ?_⟩
    rw [show (ShortenResponse.mk (trimStr u) (BASE_URL ++ "/" ++ c) c).shortCode = c
      from rfl]
    rw [resolve_found hlook]
  · intro h
    obtain ⟨hstore2, u', r, hinput, hfind, hresp⟩ := shorten_found_inv h
    injection hinput with hu
    subst hu
    have hfind' : findOneBy (fun r => r.originalUrl) store u = some r := hfind
    have hru : r.originalUrl = u := (findOneBy_eq_some hfind').1
    have hnd : (store.map (fun r => r.shortCode)).Nodup := huniq
    have hmem : r ∈ store := (findOneBy_eq_some hfind').2
    have hlook : findOneByShortCode store r.shortCode = some r :=
      findOneBy_self_of_nodup hnd hmem
    subst hresp
    subst hstore2
    refine ⟨saveUpdate r.shortCode
      ⟨r.originalUrl, r.shortCode, r.clicks + 1, r.createdAt, some now2⟩ store2, ?_⟩
    rw [show (ShortenResponse.mk r.originalUrl (BASE_URL ++ "/" ++ r.shortCode)
      r.shortCode).shortCode = r.shortCode from rfl]
    rw [resolve_found hlook, hru]

/-- C4 witness: after creating a record for http://a.com (a trimmed input),
resolving the returned code AAAAAAA redirects to trim of the input. -/
theorem round_trip_amended_witness :
    ∃ st3, resolve 4 [⟨"http://a.com", "AAAAAAA", 0, 0, none⟩] "AAAAAAA" =
      ResolveResult.redirect (trimStr "http://a.com") st3 :=
  (round_trip_amended shortidStream 0 4 [] [⟨"http://a.com", "AAAAAAA", 0, 0, none⟩]
    "http://a.com" 1 ⟨"http://a.com", "http://localhost:3000/AAAAAAA", "AAAAAAA"⟩
    shortidStream_trim (by simp [UniqCodes])).1 (by decide)

/-- C4 counterexample: the input "https://example.com/a " (trailing space)
is a valid URL for the constructor, which strips outer whitespace, but the
schema setter trims the stored originalUrl, so resolving the returned code
redirects to the trimmed string, not to the input: resolve after shorten
does not return the original input for every valid URL. -/
theorem round_trip_counterexample :
    shorten shortidStream 0 [] (some "https://example.com/a ") 1 =
      some (ShortenResult.created
        ⟨"https://example.com/a", "http://localhost:3000/AAAAAAA", "AAAAAAA"⟩
        [⟨"https://example.com/a", "AAAAAAA", 0, 0, none⟩]) ∧
    resolve 9 [⟨"https://example.com/a", "AAAAAAA", 0, 0, none⟩] "AAAAAAA" =
      ResolveResult.redirect "https://example.com/a"
        [⟨"https://example.com/a", "AAAAAAA", 1, 0, some 9⟩] ∧
    ("https://example.com/a" : String) ≠ "https://example.com/a " := by decide

/-- C10: the idempotence lookup matches originalUrl by exact string
equality with no normalisation: for two distinct (already-trimmed) valid
URL strings — such as with and without a trailing slash — the second call
misses the fast path, and whenever it then creates, the store ends up with
both records, one per textual variant, carrying distinct shortCodes. -/
theorem exact_match_no_normalization :
    ∀ (gen : Nat → String) (now1 now2 : Nat) (u1 u2 : String) (fuel1 fuel2 : Nat)
      (resp1 : ShortenResponse) (store1 : List UrlRecord),
      (∀ n, trimStr (gen n) = gen n) →
      trimStr u1 = u1 → trimStr u2 = u2 → u1 ≠ u2 →
      shorten gen now1 [] (some u1) fuel1 = some (ShortenResult.created resp1 store1) →
      findOneByOriginalUrl store1 u2 = none ∧
      (∀ (resp2 : ShortenResponse) (store2 : List UrlRecord),
        shorten gen now2 store1 (some u2) fuel2 = some (ShortenResult.created resp2 store2) →
        resp2.shortCode ≠ resp1.shortCode ∧
        store2.map (fun r => r.originalUrl) = [u1, u2]) := by
  intro gen now1 now2 u1 u2 fuel1 fuel2 resp1 store1 hg ht1 ht2 hne h1
  obtain ⟨u1', c1, hin1, hv1, hf1, hff1, hresp1, hstore1⟩ := shorten_created_inv h1
  injection hin1 with hu1
  subst hu1
  have hstore1' : store1 = [⟨trimStr u1, trimStr c1, 0, now1, none⟩] := by
    rw [hstore1]
    rfl
  constructor
  · rw [hstore1']
    unfold findOneByOriginalUrl
    apply findOneBy_eq_none_of
    intro r hr
    rw [List.mem_singleton] at hr
    subst hr
    show trimStr u1 ≠ u2
    rw [ht1]
    exact hne
  · intro resp2 store2 h2
    obtain ⟨u2', c2, hin2, hv2, hf2, hff2, hresp2, hstore2⟩ := shorten_created_inv h2
    injection hin2 with hu2
    subst hu2
    obtain ⟨hfr2, n2, hcn2⟩ := findFresh_sound fuel2 0 hff2
    obtain ⟨hfr1, n1, hcn1⟩ := findFresh_sound fuel1 0 hff1
    have htc1 : trimStr c1 = c1 := by rw [hcn1]; exact hg n1
    have htc2 : trimStr c2 = c2 := by rw [hcn2]; exact hg n2
    constructor
    · have hmem : (⟨trimStr u1, trimStr c1, 0, now1, none⟩ : UrlRecord) ∈ store1 := by
        rw [hstore1']
        exact List.mem_singleton_self _
      have hfr2' : findOneBy (fun r => r.shortCode) store1 c2 = none := hfr2
      have hne2 := findOneBy_eq_none hfr2' _ hmem
      simp only at hne2
      rw [htc1] at hne2
      rw [hresp1, hresp2]
      show trimStr c2 ≠ trimStr c1
      rw [htc1, htc2]
      exact fun he => hne2 he.symm
    · rw [hstore2, hstore1']
      simp [ht1, ht2]

/-- C10 witness: shortening http://example.com and then the textually
different http://example.com/ misses the fast path and yields two records
with the distinct codes AAAAAAA and BAAAAAA. -/
theorem exact_match_no_normalization_witness :
    findOneByOriginalUrl [⟨"http://example.com", "AAAAAAA", 0, 0, none⟩]
        "http://example.com/" = none ∧
    ("BAAAAAA" : String) ≠ "AAAAAAA" ∧
    ([⟨"http://example.com", "AAAAAAA", 0, 0, none⟩,
      ⟨"http://example.com/", "BAAAAAA", 0, 1, none⟩] :
        List UrlRecord).map (fun r => r.originalUrl) =
      ["http://example.com", "http://example.com/"] := by
  have h := exact_match_no_normalization shortidStream 0 1 "http://example.com"
    "http://example.com/" 1 2
    ⟨"http://example.com", "http://localhost:3000/AAAAAAA", "AAAAAAA"⟩
    [⟨"http://example.com", "AAAAAAA", 0, 0, none⟩]
    shortidStream_trim (by decide) (by decide) (by decide) (by decide)
  have h2 := h.2 ⟨"http://example.com/", "http://localhost:3000/BAAAAAA", "BAAAAAA"⟩
    [⟨"http://example.com", "AAAAAAA", 0, 0, none⟩,
     ⟨"http://example.com/", "BAAAAAA", 0, 1, none⟩] (by decide)
  exact ⟨h.1, h2.1, h2.2⟩
